import Mathlib

/-!
Verification development for `sphinx-polyglot.py`, a Sphinx extension that
registers one documentation domain per programming language.  Strings are
modelled as `List Char`.  The Python regular expressions are embedded as
deterministic parsing functions that reproduce the leftmost/greedy
backtracking behaviour of `re.match`, together with relational "shape"
predicates that transcribe the same patterns declaratively.  The mutable
Sphinx build environment (the `polyglot:namespace` slot of `env.ref_context`,
the per-domain `objects` registry and each document's id set) is modelled as
explicit state threaded through a directive-processing step function.
-/

namespace SphinxPolyglot

/-! ### Character classes

ASCII fragments of Python's `\s` and `\w` (the signatures in the claims are
ASCII).  `nonSpace` is `\S`, `nonRParen` is `[^)]`. -/

def isPySpace (c : Char) : Bool :=
  c == ' ' || c == '\t' || c == '\n' || c == '\r' || c == '\x0b' || c == '\x0c'

def isWordChar (c : Char) : Bool :=
  c.isAlphanum || c == '_'

def isWordDotChar (c : Char) : Bool :=
  isWordChar c || c == '.'

def nonSpace (c : Char) : Bool :=
  !(isPySpace c)

def nonRParen (c : Char) : Bool :=
  !(c == ')')

/-! ### The trailing `(.*)$` of the signature regexes

Python's `.` does not match a newline and `$` (without `re.MULTILINE`)
matches at the end of the string or just before a final newline.  So
`(.*)$` applied to a remainder succeeds iff the remainder contains no
newline, or contains exactly one newline in final position (in which case
the capture drops it). -/

def dotStarEnd (s : List Char) : Option (List Char) :=
  if '\n' ∈ s then
    if s.getLast? = some '\n' ∧ '\n' ∉ s.dropLast then some s.dropLast else none
  else some s

/-! ### Signature parsers

`GoFuncDirective.GO_FUNC_SIG_RE` is (with `re.VERBOSE` whitespace removed)

  `^(?:\(\S+\s+([^)]+)\))?\s*([\w.]+)\s*\(([^)]*)\)\s*(.*)$`

`SQLFunctionDirective.SQL_FUNCTION_SIG_RE` is

  `^([\w.]+)\s*\(([^)]*)\)\s*(.*)$`

and `KotlinPropertyDirective.KOTLIN_METHOD_SIG_RE` is

  `^([\w.]+)\#([\w]+)\s*:\s*(.*)$`.
-/

/-- Consume one expected literal character, as a regex literal does. -/
def expectChar (c : Char) (s : List Char) : Option (List Char) :=
  match s with
  | x :: r => if x = c then some r else none
  | [] => none

structure FuncCore where
  name : List Char
  params : List Char
  ret : List Char
deriving DecidableEq

/-- The common tail `([\w.]+)\s*\(([^)]*)\)\s*(.*)$` of the Go and SQL
function regexes: greedy name, whitespace, a parenthesised parameter list
(up to the first `)`), whitespace, then the rest of the line.  Each greedy
run is forced: shrinking it can never make a later literal match. -/
def parseFuncCore (s : List Char) : Option FuncCore :=
  if s.takeWhile isWordDotChar = [] then none
  else
    (expectChar '(' ((s.dropWhile isWordDotChar).dropWhile isPySpace)).bind
      fun s2 =>
        (expectChar ')' (s2.dropWhile nonRParen)).bind fun s3 =>
          (dotStarEnd (s3.dropWhile isPySpace)).map
            (fun ret => ⟨s.takeWhile isWordDotChar, s2.takeWhile nonRParen, ret⟩)

/-- The optional method-receiver group `\(\S+\s+([^)]+)\)` of the Go regex,
applied to the input after its leading `(`.  `\S+` is the maximal non-space
run (shrinking it leaves a non-space where `\s+` must match); the closing
`)` is the first `)` after that run; `\s+` is greedy but backs off one
character when the capture `[^)]+` would otherwise be empty.  Returns the
capture and the rest of the input. -/
def goParseReceiver (s1 : List Char) : Option (List Char × List Char) :=
  if s1.takeWhile nonSpace = [] then none
  else if ((s1.dropWhile nonSpace).takeWhile isPySpace).length = 0 then none
  else
    (expectChar ')' ((s1.dropWhile nonSpace).dropWhile nonRParen)).bind
      fun rest =>
        if ((s1.dropWhile nonSpace).takeWhile nonRParen).length < 2 then none
        else some
          (((s1.dropWhile nonSpace).takeWhile nonRParen).drop
              (min ((s1.dropWhile nonSpace).takeWhile isPySpace).length
                (((s1.dropWhile nonSpace).takeWhile nonRParen).length - 1)),
           rest)

structure GoSig where
  receiver : Option (List Char)
  name : List Char
  params : List Char
  ret : List Char
deriving DecidableEq

/-- `GoFuncDirective`'s regex match.  The optional receiver group is tried
only when the input starts with `(`; in that case skipping the group can
never succeed either (the name class `[\w.]` excludes `(`), and all ways of
matching the group leave the same rest, so the group is effectively
mandatory there.  After the optional group the pattern continues
`\s*([\w.]+)\s*\(([^)]*)\)\s*(.*)$`. -/
def goDescribeSignatureCore (s : List Char) : Option GoSig :=
  (expectChar '(' s).elim
    ((parseFuncCore (s.dropWhile isPySpace)).map
      (fun f => ⟨none, f.name, f.params, f.ret⟩))
    (fun s1 =>
      (goParseReceiver s1).bind fun pr =>
        (parseFuncCore (pr.2.dropWhile isPySpace)).map
          (fun f => ⟨some pr.1, f.name, f.params, f.ret⟩))

structure KtProp where
  className : List Char
  propName : List Char
  propType : List Char
deriving DecidableEq

/-- `KotlinPropertyDirective`'s regex match
`^([\w.]+)\#([\w]+)\s*:\s*(.*)$`. -/
def kotlinParseSig (s : List Char) : Option KtProp :=
  if s.takeWhile isWordDotChar = [] then none
  else
    (expectChar '#' (s.dropWhile isWordDotChar)).bind fun s2 =>
      if s2.takeWhile isWordChar = [] then none
      else
        (expectChar ':' ((s2.dropWhile isWordChar).dropWhile isPySpace)).bind
          fun s4 =>
            (dotStarEnd (s4.dropWhile isPySpace)).map
              (fun ty => ⟨s.takeWhile isWordDotChar, s2.takeWhile isWordChar, ty⟩)

/-! ### Relational transcription of the regex shapes (used for claim C6) -/

def AllB (p : Char → Bool) (l : List Char) : Prop :=
  ∀ c ∈ l, p c = true

instance {p : Char → Bool} {l : List Char} : Decidable (AllB p l) :=
  inferInstanceAs (Decidable (∀ c ∈ l, p c = true))

def OptNewline (t : List Char) : Prop :=
  t = [] ∨ t = ['\n']

/-- A string matches `^([\w.]+)\s*\(([^)]*)\)\s*(.*)$` iff it splits into
a nonempty word/dot name, whitespace, `(`, a `)`-free parameter text, `)`,
whitespace, a newline-free remainder and an optional final newline. -/
def FuncCoreShape (s : List Char) : Prop :=
  ∃ nm w1 params w2 ret nl,
    s = nm ++ (w1 ++ '(' :: (params ++ ')' :: (w2 ++ (ret ++ nl)))) ∧
    nm ≠ [] ∧ AllB isWordDotChar nm ∧ AllB isPySpace w1 ∧
    AllB nonRParen params ∧ AllB isPySpace w2 ∧ '\n' ∉ ret ∧ OptNewline nl

/-- A string matches the receiver group `\(\S+\s+([^)]+)\)`. -/
def GoReceiverShape (r : List Char) : Prop :=
  ∃ t w c,
    r = '(' :: (t ++ (w ++ (c ++ [')']))) ∧
    t ≠ [] ∧ AllB nonSpace t ∧ w ≠ [] ∧ AllB isPySpace w ∧
    c ≠ [] ∧ AllB nonRParen c

/-- A string matches the whole Go function regex: an optional receiver
group, whitespace, then the common function-call tail. -/
def GoFuncShape (s : List Char) : Prop :=
  ∃ rcv w0 rest,
    s = rcv ++ (w0 ++ rest) ∧ (rcv = [] ∨ GoReceiverShape rcv) ∧
    AllB isPySpace w0 ∧ FuncCoreShape rest

/-- A string contains a `#` followed (not necessarily adjacently) by a `:`;
this is what the Kotlin property grammar requires of its delimiters. -/
def HashColonInOrder (s : List Char) : Prop :=
  ∃ l1 l2 l3, s = l1 ++ '#' :: (l2 ++ ':' :: l3)

/-! ### Signature display nodes

`describe_signature` fills a `desc_signature` node with children; only the
child kinds used by this extension are modelled.  `parameterlist ps` stands
for a `desc_parameterlist` holding one `desc_parameter` per element. -/

inductive DescNode where
  | annot : List Char → DescNode
  | addname : List Char → DescNode
  | declName : List Char → DescNode
  | parameterlist : List (List Char) → DescNode
  | text : List Char → DescNode
  | returns : List Char → DescNode
deriving DecidableEq

structure DirectiveConfig where
  directiveName : List Char
  namespaceSeparator : Option (List Char)
deriving DecidableEq

/-- The single `ref_context` key used by every domain of the extension. -/
def polyglotNamespaceKey : List Char :=
  "polyglot:namespace".data

/-- `env.ref_context`, a per-build mutable string-keyed dictionary. -/
def RefContext : Type :=
  List Char → Option (List Char)

/-- Update of a function-represented dictionary at one key. -/
def fupdate {α β : Type} [DecidableEq α] (f : α → β) (a : α) (b : β) : α → β :=
  fun x => if x = a then b else f x

/-- `make_directive(directive_name, namespace_separator)`'s
`describe_signature`: an annotation `<directive_name> `, then (when a
separator is configured and `ref_context['polyglot:namespace']` is set) a
`desc_addname` holding `namespace + separator`, then a `desc_name` holding
the raw signature.  The Python function has no `return` statement, so the
returned value is `None`. -/
def genericDescribeSignature (cfg : DirectiveConfig) (ctx : RefContext)
    (sig : List Char) : List DescNode × Option (List Char) :=
  let ann := [DescNode.annot (cfg.directiveName ++ " ".data)]
  let pre : List DescNode :=
    match cfg.namespaceSeparator with
    | none => []
    | some sep =>
      match ctx polyglotNamespaceKey with
      | none => []
      | some ns => [DescNode.addname (ns ++ sep)]
  (ann ++ pre ++ [DescNode.declName sig], none)

/-- `GoFuncDirective.describe_signature`: parse, then emit `func `, the
receiver as a parameter list, the namespace as `<pkg>.`, the name, the
(unsplit) parameter list, and the return type when nonempty.  Returns
`func_name`.  (The regex group `([^)]*)` always participates in a match,
so the `func_params is not None` test in the source is always true.) -/
def goDescribeSignatureFull (ctx : RefContext) (sig : List Char) :
    Option (List DescNode × Option (List Char)) :=
  (goDescribeSignatureCore sig).map fun r =>
    let pkg := ctx polyglotNamespaceKey
    ([DescNode.annot "func ".data]
      ++ (match r.receiver with
          | some rc => [DescNode.parameterlist [rc]]
          | none => [])
      ++ (match pkg with
          | some ns => [DescNode.addname (ns ++ ".".data)]
          | none => [])
      ++ [DescNode.declName r.name, DescNode.parameterlist [r.params]]
      ++ (if r.ret.length > 0 then
            [DescNode.text " ".data, DescNode.returns r.ret]
          else []),
     some r.name)

/-- `KotlinPropertyDirective.describe_signature`: parse, then emit
`property `, the namespace as `<pkg>.<class>.`, the property name, and the
type when nonempty.  Returns `class_name + '#' + prop_name`. -/
def kotlinDescribeSignatureFull (ctx : RefContext) (sig : List Char) :
    Option (List DescNode × Option (List Char)) :=
  (kotlinParseSig sig).map fun r =>
    let pkg := ctx polyglotNamespaceKey
    ([DescNode.annot "property ".data]
      ++ (match pkg with
          | some ns =>
            [DescNode.addname (ns ++ ".".data ++ r.className ++ ".".data)]
          | none => [])
      ++ [DescNode.declName r.propName]
      ++ (if r.propType.length > 0 then
            [DescNode.text " ".data, DescNode.returns r.propType]
          else []),
     some (r.className ++ "#".data ++ r.propName))

/-- `SQLFunctionDirective.describe_signature`: like the Go one but with the
annotation `function ` and no receiver. -/
def sqlDescribeSignatureFull (ctx : RefContext) (sig : List Char) :
    Option (List DescNode × Option (List Char)) :=
  (parseFuncCore sig).map fun r =>
    let pkg := ctx polyglotNamespaceKey
    ([DescNode.annot "function ".data]
      ++ (match pkg with
          | some ns => [DescNode.addname (ns ++ ".".data)]
          | none => [])
      ++ [DescNode.declName r.name, DescNode.parameterlist [r.params]]
      ++ (if r.ret.length > 0 then
            [DescNode.text " ".data, DescNode.returns r.ret]
          else []),
     some r.name)

/-! ### Directive kinds and directive processing -/

/-- The directive classes produced in the source: `make_directive(...)`
instances, `make_namespace_directive(...)` instances (which carry their
directive name and have no separator), and the three hand-written
subclasses. -/
inductive DirKind where
  | generic : DirectiveConfig → DirKind
  | namespaceIntro : List Char → DirKind
  | goFunc : DirKind
  | kotlinProperty : DirKind
  | sqlFunction : DirKind
deriving DecidableEq

/-- Dispatch to the appropriate `describe_signature`; `none` models a
raised `ValueError` (`'no match'`). -/
def describeSignatureDispatch (k : DirKind) (ctx : RefContext)
    (sig : List Char) : Option (List DescNode × Option (List Char)) :=
  match k with
  | .generic cfg => some (genericDescribeSignature cfg ctx sig)
  | .namespaceIntro dn => some (genericDescribeSignature ⟨dn, none⟩ ctx sig)
  | .goFunc => goDescribeSignatureFull ctx sig
  | .kotlinProperty => kotlinDescribeSignatureFull ctx sig
  | .sqlFunction => sqlDescribeSignatureFull ctx sig

/-- `PolyglotObject.handle_signature`: the canonical name is the value
returned by `describe_signature`, or the raw signature when that value is
`None`. -/
def handleSignature (res : List DescNode × Option (List Char))
    (sig : List Char) : List Char :=
  match res.2 with
  | none => sig
  | some r => r

/-- The directive-name component used by `get_index_text` (the argument
`make_directive` was called with; `'function'` for `GoFuncDirective` and
`SQLFunctionDirective`, `'property'` for `KotlinPropertyDirective`). -/
def dirKindName (k : DirKind) : List Char :=
  match k with
  | .generic cfg => cfg.directiveName
  | .namespaceIntro dn => dn
  | .goFunc => "function".data
  | .kotlinProperty => "property".data
  | .sqlFunction => "function".data

/-- `get_index_text`: `'%s (%s %s)' % (name, domain_label, directive_name)`
(the objtype argument is ignored by the source). -/
def getIndexText (domainLabel directiveName nm : List Char) : List Char :=
  nm ++ " (".data ++ domainLabel ++ " ".data ++ directiveName ++ ")".data

/-- Python `str.strip()` on ASCII whitespace. -/
def pyStrip (s : List Char) : List Char :=
  ((s.dropWhile isPySpace).reverse.dropWhile isPySpace).reverse

/-- Build-wide mutable state: `env.ref_context`,
`env.domaindata[domain]['objects']` (a per-domain dict flattened here into
one map keyed by `(domain, (objtype, name))`) and each docutils document's
id set. -/
structure BuildState where
  refContext : RefContext
  objects : List Char × (List Char × List Char) → Option (List Char)
  docIds : List Char → List (List Char)

def initialBuildState : BuildState :=
  { refContext := fun _ => none
    objects := fun _ => none
    docIds := fun _ => [] }

structure IndexEntry where
  entryType : List Char
  text : List Char
  target : List Char
deriving DecidableEq

def targetNameOf (objtype nm : List Char) : List Char :=
  objtype ++ "-".data ++ nm

/-- The warning text built by `add_target_and_index` on a duplicate. -/
def duplicateWarning (objtype nm path : List Char) : List Char :=
  "duplicate definition of ".data ++ objtype ++ " ".data ++ nm ++ ", ".data
    ++ "other instance in ".data ++ path

structure AddResult where
  state : BuildState
  warnings : List (List Char)
  index : List IndexEntry

/-- `PolyglotObject.add_target_and_index`: when the target id is new in the
current document, register it, warn if the `(objtype, name)` registry key
exists (naming the earlier document's path) and overwrite the registry
entry with the current document; in any case append the index entry when
the index text is nonempty. -/
def addTargetAndIndex (doc2path : List Char → List Char) (st : BuildState)
    (domain objtype nm docname indexText : List Char) : AddResult :=
  let tname := targetNameOf objtype nm
  let step :=
    if tname ∈ st.docIds docname then (st, ([] : List (List Char)))
    else
      let warns :=
        match st.objects (domain, (objtype, nm)) with
        | some prev => [duplicateWarning objtype nm (doc2path prev)]
        | none => []
      ({ st with
          docIds := fupdate st.docIds docname (tname :: st.docIds docname)
          objects := fupdate st.objects (domain, (objtype, nm)) (some docname) },
       warns)
  let idx : List IndexEntry :=
    if indexText = [] then [] else [⟨"single".data, indexText, tname⟩]
  ⟨step.1, step.2, idx⟩

/-- One directive occurrence in a build: its class, the domain it belongs
to (name and label), its objtype key, the document being processed and the
signature text (which is also `self.arguments[0]` for namespace-introducing
directives). -/
structure Event where
  kind : DirKind
  domainName : List Char
  domainLabel : List Char
  objtype : List Char
  docname : List Char
  sig : List Char

structure StepResult where
  state : BuildState
  warnings : List (List Char)
  index : List IndexEntry
  nodes : List DescNode
  canonicalName : List Char

/-- The write `env.ref_context['polyglot:namespace'] =
self.arguments[0].strip()` performed by `PolyglotNamespaceDirective.run`
before the common `ObjectDescription.run`; all other directive classes
leave the context untouched. -/
def nsUpdate (st : BuildState) (k : DirKind) (sig : List Char) : BuildState :=
  match k with
  | DirKind.namespaceIntro _ =>
    { st with
        refContext :=
          fupdate st.refContext polyglotNamespaceKey (some (pyStrip sig)) }
  | _ => st

/-- Processing of one directive: `PolyglotNamespaceDirective.run` first
stores the stripped argument under `'polyglot:namespace'`, then (like every
directive, via `ObjectDescription.run`) `handle_signature` runs
`describe_signature` and `add_target_and_index` records the result.  A
`none` result models the `ValueError` raised on a malformed signature. -/
def processDirective (doc2path : List Char → List Char) (st : BuildState)
    (e : Event) : Option StepResult :=
  (describeSignatureDispatch e.kind (nsUpdate st e.kind e.sig).refContext
      e.sig).map
    fun res =>
      let nm := handleSignature res e.sig
      let r := addTargetAndIndex doc2path (nsUpdate st e.kind e.sig)
        e.domainName e.objtype nm e.docname
        (getIndexText e.domainLabel (dirKindName e.kind) nm)
      ⟨r.state, r.warnings, r.index, res.1, nm⟩

/-- The state after one directive (a failed signature parse leaves the
state unchanged: Sphinx reports the error and skips the signature). -/
def stepState (doc2path : List Char → List Char) (st : BuildState)
    (e : Event) : BuildState :=
  match processDirective doc2path st e with
  | none => st
  | some r => r.state

def processAll (doc2path : List Char → List Char) (st : BuildState)
    (es : List Event) : BuildState :=
  es.foldl (stepState doc2path) st

/-! ### The domain tables registered by `setup` -/

structure DomainSpec where
  name : List Char
  label : List Char
  directives : List (List Char × DirKind)

def mkGen (dn : String) (sep : Option String) : DirKind :=
  .generic ⟨dn.data, sep.map String.data⟩

def clDomain : DomainSpec :=
  ⟨"lisp".data, "Common Lisp".data,
   [("class".data, mkGen "class" (some ":")),
    ("package".data, .namespaceIntro "package".data),
    ("system".data, mkGen "system" none)]⟩

def dotnetDomain : DomainSpec :=
  ⟨"dotnet".data, ".NET".data,
   [("assembly".data, mkGen "assembly" none),
    ("class".data, mkGen "class" (some ".")),
    ("namespace".data, .namespaceIntro "namespace".data)]⟩

def elixirDomain : DomainSpec :=
  ⟨"ex".data, "Elixir".data,
   [("module".data, .namespaceIntro "module".data),
    ("package".data, mkGen "package" none)]⟩

def erlangDomain : DomainSpec :=
  ⟨"erl".data, "Erlang".data,
   [("module".data, .namespaceIntro "module".data),
    ("package".data, mkGen "package" none)]⟩

def goDomain : DomainSpec :=
  ⟨"go".data, "Go".data,
   [("const".data, mkGen "constant" (some ".")),
    ("func".data, .goFunc),
    ("package".data, .namespaceIntro "package".data),
    ("type".data, mkGen "type" (some "."))]⟩

def jvmDirectives : List (List Char × DirKind) :=
  [("class".data, mkGen "class" (some ".")),
   ("package".data, .namespaceIntro "package".data),
   ("method".data, mkGen "method" none)]

def jvmDomain : DomainSpec :=
  ⟨"jvm".data, "JVM".data, jvmDirectives⟩

def javaDomain : DomainSpec :=
  ⟨"java".data, "Java".data, jvmDirectives⟩

def kotlinDomain : DomainSpec :=
  ⟨"kt".data, "Kotlin".data,
   [("class".data, mkGen "class" (some ".")),
    ("package".data, .namespaceIntro "package".data),
    ("method".data, mkGen "method" none),
    ("property".data, .kotlinProperty)]⟩

def luaDomain : DomainSpec :=
  ⟨"lua".data, "Lua".data,
   [("module".data, .namespaceIntro "module".data)]⟩

def ocamlDomain : DomainSpec :=
  ⟨"ml".data, "OCaml".data,
   [("module".data, .namespaceIntro "module".data),
    ("package".data, mkGen "package" none)]⟩

def phpDomain : DomainSpec :=
  ⟨"php".data, "PHP".data,
   [("class".data, mkGen "class" (some "\\")),
    ("namespace".data, .namespaceIntro "namespace".data),
    ("package".data, mkGen "package" none)]⟩

def rubyDomain : DomainSpec :=
  ⟨"rb".data, "Ruby".data,
   [("class".data, mkGen "class" (some "::")),
    ("library".data, mkGen "library" none),
    ("module".data, .namespaceIntro "module".data)]⟩

def sqlDomain : DomainSpec :=
  ⟨"sql".data, "SQL".data,
   [("channel".data, mkGen "channel" (some ".")),
    ("function".data, .sqlFunction),
    ("schema".data, .namespaceIntro "schema".data),
    ("table".data, mkGen "table" (some ".")),
    ("trigger".data, mkGen "trigger" (some ".")),
    ("type".data, mkGen "type" (some ".")),
    ("view".data, mkGen "view" (some "."))]⟩

/-- The domains `setup` adds (`JSDomain` is defined in the source but the
`app.add_domain(JSDomain)` line is commented out). -/
def addedDomains : List DomainSpec :=
  [clDomain, dotnetDomain, elixirDomain, erlangDomain, goDomain, javaDomain,
   jvmDomain, kotlinDomain, luaDomain, ocamlDomain, phpDomain, rubyDomain,
   sqlDomain]

/-- Every `namespace_separator` value passed to `make_directive` across the
registered domains (with repetitions). -/
def registeredNamespaceSeparators : List (List Char) :=
  addedDomains.flatMap fun d =>
    d.directives.filterMap fun p =>
      match p.2 with
      | .generic cfg => cfg.namespaceSeparator
      | _ => none

/-! ### Helper lemmas: character classes -/

theorem pySpace_cases {c : Char} (h : isPySpace c = true) :
    c = ' ' ∨ c = '\t' ∨ c = '\n' ∨ c = '\r' ∨ c = '\x0b' ∨ c = '\x0c' := by
  simpa [isPySpace, or_assoc] using h

theorem pySpace_not_wordDot {c : Char} (h : isPySpace c = true) :
    isWordDotChar c = false := by
  rcases pySpace_cases h with rfl | rfl | rfl | rfl | rfl | rfl <;> decide

theorem pySpace_not_word {c : Char} (h : isPySpace c = true) :
    isWordChar c = false := by
  rcases pySpace_cases h with rfl | rfl | rfl | rfl | rfl | rfl <;> decide

theorem pySpace_nonRParen {c : Char} (h : isPySpace c = true) :
    nonRParen c = true := by
  rcases pySpace_cases h with rfl | rfl | rfl | rfl | rfl | rfl <;> decide

theorem pySpace_ne_lparen {c : Char} (h : isPySpace c = true) : c ≠ '(' := by
  rcases pySpace_cases h with rfl | rfl | rfl | rfl | rfl | rfl <;> decide

theorem wordDot_not_pySpace {c : Char} (h : isWordDotChar c = true) :
    isPySpace c = false := by
  cases hs : isPySpace c
  · rfl
  · rw [pySpace_not_wordDot hs] at h
    cases h

theorem wordDot_nonSpace {c : Char} (h : isWordDotChar c = true) :
    nonSpace c = true := by
  simp [nonSpace, wordDot_not_pySpace h]

theorem wordDot_ne_lparen {c : Char} (h : isWordDotChar c = true) : c ≠ '(' := by
  rintro rfl
  exact absurd h (by decide)

theorem wordDot_ne_rparen {c : Char} (h : isWordDotChar c = true) : c ≠ ')' := by
  rintro rfl
  exact absurd h (by decide)

theorem word_not_pySpace {c : Char} (h : isWordChar c = true) :
    isPySpace c = false := by
  cases hs : isPySpace c
  · rfl
  · rw [pySpace_not_word hs] at h
    cases h

/-! ### Helper lemmas: `expectChar`, `takeWhile`, `dropWhile` -/

theorem expectChar_eq_some {c : Char} {s r : List Char} :
    expectChar c s = some r ↔ s = c :: r := by
  cases s with
  | nil => simp [expectChar]
  | cons x xs =>
    by_cases h : x = c <;> simp [expectChar, h]

theorem expectChar_none_of_head {c : Char} {s : List Char}
    (h : ∀ x, s.head? = some x → x ≠ c) : expectChar c s = none := by
  cases s with
  | nil => rfl
  | cons x xs => exact if_neg (h x rfl)

theorem all_head_false {p : Char → Bool} {w : List Char} {d : Char}
    {X : List Char} (hw : ∀ c ∈ w, p c = false) (hd : p d = false) :
    ∀ c, (w ++ d :: X).head? = some c → p c = false := by
  intro c hc
  cases w with
  | nil =>
    simp only [List.nil_append, List.head?_cons, Option.some.injEq] at hc
    exact hc ▸ hd
  | cons a as =>
    simp only [List.cons_append, List.head?_cons, Option.some.injEq] at hc
    exact hc ▸ hw a (List.mem_cons_self a as)

theorem takeWhile_append_stop {p : Char → Bool} {a b : List Char}
    (ha : ∀ c ∈ a, p c = true) (hb : ∀ c, b.head? = some c → p c = false) :
    (a ++ b).takeWhile p = a := by
  rw [List.takeWhile_append_of_pos ha]
  cases b with
  | nil => simp
  | cons x xs =>
    rw [List.takeWhile_cons_of_neg (by simp [hb x rfl]), List.append_nil]

theorem dropWhile_append_stop {p : Char → Bool} {a b : List Char}
    (ha : ∀ c ∈ a, p c = true) (hb : ∀ c, b.head? = some c → p c = false) :
    (a ++ b).dropWhile p = b := by
  rw [List.dropWhile_append_of_pos ha]
  cases b with
  | nil => rfl
  | cons x xs => exact List.dropWhile_cons_of_neg (by simp [hb x rfl])

theorem dropWhile_head_false {p : Char → Bool} {l r : List Char} {c : Char}
    (h : l.dropWhile p = c :: r) : p c = false := by
  have hh := List.head?_dropWhile_not p l
  rw [h] at hh
  simpa using hh

theorem takeWhile_eq_take {p : Char → Bool} (l : List Char) :
    l.takeWhile p = l.take (l.takeWhile p).length := by
  have := List.takeWhile_prefix (l := l) p
  exact List.prefix_iff_eq_take.mp this

theorem take_takeWhile_eq {p : Char → Bool} {l : List Char} {i : ℕ}
    (hi : i ≤ (l.takeWhile p).length) :
    (l.takeWhile p).take i = l.take i := by
  obtain ⟨u, hu⟩ := List.takeWhile_prefix (l := l) p
  conv_rhs => rw [← hu]
  rw [List.take_append_eq_append_take, Nat.sub_eq_zero_of_le hi,
    List.take_zero, List.append_nil]

theorem mem_take_takeWhile {p : Char → Bool} {l : List Char} {i : ℕ}
    (hi : i ≤ (l.takeWhile p).length) : ∀ c ∈ l.take i, p c = true := by
  intro c hc
  obtain ⟨u, hu⟩ := List.takeWhile_prefix (l := l) p
  have h1 : l.take i = (l.takeWhile p).take i := by
    conv_lhs => rw [← hu]
    rw [List.take_append_eq_append_take, Nat.sub_eq_zero_of_le hi,
      List.take_zero, List.append_nil]
  rw [h1] at hc
  exact List.mem_takeWhile_imp (List.take_subset i _ hc)

/-! ### Helper lemmas: `dotStarEnd` -/

theorem dotStarEnd_no_newline {s : List Char} (h : '\n' ∉ s) :
    dotStarEnd s = some s := by
  simp [dotStarEnd, h]

theorem dotStarEnd_trailing {s : List Char} (h : '\n' ∉ s) :
    dotStarEnd (s ++ ['\n']) = some s := by
  have hmem : '\n' ∈ s ++ ['\n'] := by simp
  have hlast : (s ++ ['\n']).getLast? = some '\n' := by
    simp [List.getLast?_concat]
  have hdl : (s ++ ['\n']).dropLast = s := List.dropLast_concat ..
  simp [dotStarEnd, hmem, hlast, hdl, h]

theorem dotStarEnd_some {s r : List Char} (h : dotStarEnd s = some r) :
    '\n' ∉ r ∧ (s = r ∨ s = r ++ ['\n']) := by
  unfold dotStarEnd at h
  split at h
  · rename_i hmem
    split at h
    · rename_i hcond
      obtain ⟨hlast, hnot⟩ := hcond
      have hr : r = s.dropLast := by
        simpa using h.symm
      subst hr
      refine ⟨hnot, Or.inr ?_⟩
      have hne : s ≠ [] := by
        rintro rfl
        simp at hlast
      conv_lhs => rw [← List.dropLast_append_getLast hne]
      rw [List.getLast?_eq_getLast s hne] at hlast
      simp only [Option.some.injEq] at hlast
      rw [hlast]
    · cases h
  · rename_i hmem
    have hr : r = s := by simpa using h.symm
    subst hr
    exact ⟨hmem, Or.inl rfl⟩

theorem dotStarEnd_isSome_of_suffix {ret nl t : List Char} (hr : '\n' ∉ ret)
    (hnl : OptNewline nl) (hsuf : t <:+ ret ++ nl) :
    (dotStarEnd t).isSome = true := by
  rcases hnl with rfl | rfl
  · rw [List.append_nil] at hsuf
    have ht : '\n' ∉ t := fun hc => hr (hsuf.subset hc)
    rw [dotStarEnd_no_newline ht]
    rfl
  · obtain ⟨u, hu⟩ := hsuf
    cases t with
    | nil => rfl
    | cons x xs =>
      have hne : x :: xs ≠ [] := by simp
      have hsplit : (x :: xs).dropLast ++ [(x :: xs).getLast hne] = x :: xs :=
        List.dropLast_append_getLast hne
      rw [← hsplit, ← List.append_assoc] at hu
      have hinj := List.append_inj' hu (by simp)
      obtain ⟨h1, h2⟩ := hinj
      have hlastEq : (x :: xs).getLast hne = '\n' := by
        simpa using congrArg (fun l => l.headD ' ') h2
      have hdl : '\n' ∉ (x :: xs).dropLast := by
        intro hc
        exact hr (by rw [← h1]; exact List.mem_append_right u hc)
      rw [← hsplit, hlastEq, dotStarEnd_trailing hdl]
      rfl

/-! ### The function-call tail: computation, soundness, completeness -/

theorem head_cons_false {p : Char → Bool} {d : Char} {X : List Char}
    (hd : p d = false) : ∀ c, (d :: X).head? = some c → p c = false := by
  intro c hc
  simp only [List.head?_cons, Option.some.injEq] at hc
  exact hc ▸ hd

theorem AllB_nil {p : Char → Bool} : AllB p [] :=
  fun c hc => absurd hc (List.not_mem_nil c)

/-- Evaluation of `parseFuncCore` on an input decomposed along the regex:
every greedy run of the pattern is forced, so the captures are exactly the
decomposition pieces and only the final `(.*)$` step remains. -/
theorem parseFuncCore_decomp {nm w1 params w2 retfull : List Char}
    (hn : nm ≠ []) (hna : AllB isWordDotChar nm) (hw1 : AllB isPySpace w1)
    (hp : AllB nonRParen params) (hw2 : AllB isPySpace w2) :
    parseFuncCore (nm ++ (w1 ++ '(' :: (params ++ ')' :: (w2 ++ retfull))))
      = (dotStarEnd (retfull.dropWhile isPySpace)).map
          (fun ret => ⟨nm, params, ret⟩) := by
  have hbf : ∀ c,
      (w1 ++ '(' :: (params ++ ')' :: (w2 ++ retfull))).head? = some c →
      isWordDotChar c = false :=
    all_head_false (fun c hc => pySpace_not_wordDot (hw1 c hc)) (by decide)
  have htk := takeWhile_append_stop (a := nm) hna hbf
  have hdr := dropWhile_append_stop (a := nm) hna hbf
  have hdr2 : (w1 ++ '(' :: (params ++ ')' :: (w2 ++ retfull))).dropWhile
      isPySpace = '(' :: (params ++ ')' :: (w2 ++ retfull)) := by
    rw [List.dropWhile_append_of_pos hw1]
    exact List.dropWhile_cons_of_neg (by decide)
  have he1 : expectChar '(' ('(' :: (params ++ ')' :: (w2 ++ retfull)))
      = some (params ++ ')' :: (w2 ++ retfull)) := expectChar_eq_some.mpr rfl
  have hq : (params ++ ')' :: (w2 ++ retfull)).takeWhile nonRParen = params :=
    takeWhile_append_stop hp (head_cons_false (by decide))
  have hq2 : (params ++ ')' :: (w2 ++ retfull)).dropWhile nonRParen
      = ')' :: (w2 ++ retfull) :=
    dropWhile_append_stop hp (head_cons_false (by decide))
  have he2 : expectChar ')' (')' :: (w2 ++ retfull)) = some (w2 ++ retfull) :=
    expectChar_eq_some.mpr rfl
  have hw2d : (w2 ++ retfull).dropWhile isPySpace
      = retfull.dropWhile isPySpace :=
    List.dropWhile_append_of_pos hw2
  unfold parseFuncCore
  rw [htk, hdr, hdr2, if_neg hn, he1]
  simp only [Option.some_bind]
  rw [hq2, he2]
  simp only [Option.some_bind]
  rw [hq, hw2d]

/-- Exact captures on inputs of the documented form `name(params) ret`. -/
theorem parseFuncCore_exact {nm params ret : List Char}
    (hn : nm ≠ []) (hna : AllB isWordDotChar nm) (hp : AllB nonRParen params)
    (hr : '\n' ∉ ret) (hrh : ∀ c, ret.head? = some c → isPySpace c = false) :
    parseFuncCore (nm ++ '(' :: (params ++ ')' ::
        (if ret = [] then [] else ' ' :: ret)))
      = some ⟨nm, params, ret⟩ := by
  have key := @parseFuncCore_decomp nm [] params []
    (if ret = [] then [] else ' ' :: ret) hn hna AllB_nil hp AllB_nil
  simp only [List.nil_append] at key
  rw [key]
  by_cases hret : ret = []
  · subst hret
    simp [dotStarEnd]
  · obtain ⟨c, cs, rfl⟩ := List.exists_cons_of_ne_nil hret
    rw [if_neg hret]
    have h1 : (' ' :: c :: cs).dropWhile isPySpace = c :: cs := by
      rw [List.dropWhile_cons_of_pos (by decide),
        List.dropWhile_cons_of_neg (by simp [hrh c rfl])]
    rw [h1, dotStarEnd_no_newline hr]
    rfl

theorem parseFuncCore_sound {s : List Char} {f : FuncCore}
    (h : parseFuncCore s = some f) : FuncCoreShape s := by
  unfold parseFuncCore at h
  by_cases hn : s.takeWhile isWordDotChar = []
  · rw [if_pos hn] at h
    cases h
  · rw [if_neg hn] at h
    cases hE : expectChar '(' ((s.dropWhile isWordDotChar).dropWhile isPySpace)
      with
    | none => rw [hE, Option.none_bind] at h; cases h
    | some s2 =>
      rw [hE, Option.some_bind] at h
      cases hE2 : expectChar ')' (s2.dropWhile nonRParen) with
      | none => rw [hE2, Option.none_bind] at h; cases h
      | some s3 =>
        rw [hE2, Option.some_bind, Option.map_eq_some'] at h
        obtain ⟨ret, hd, _⟩ := h
        obtain ⟨hretnl, hcase⟩ := dotStarEnd_some hd
        have e3 := expectChar_eq_some.mp hE
        have e5 := expectChar_eq_some.mp hE2
        have hna : AllB isWordDotChar (s.takeWhile isWordDotChar) :=
          fun c hc => List.mem_takeWhile_imp hc
        have hw1 : AllB isPySpace
            ((s.dropWhile isWordDotChar).takeWhile isPySpace) :=
          fun c hc => List.mem_takeWhile_imp hc
        have hpa : AllB nonRParen (s2.takeWhile nonRParen) :=
          fun c hc => List.mem_takeWhile_imp hc
        have hw2 : AllB isPySpace (s3.takeWhile isPySpace) :=
          fun c hc => List.mem_takeWhile_imp hc
        rcases hcase with hcase | hcase
        · refine ⟨s.takeWhile isWordDotChar,
            (s.dropWhile isWordDotChar).takeWhile isPySpace,
            s2.takeWhile nonRParen, s3.takeWhile isPySpace, ret, [],
            ?_, hn, hna, hw1, hpa, hw2, hretnl, Or.inl rfl⟩
          have e6 : s3.dropWhile isPySpace = ret ++ [] := by simpa using hcase
          conv_lhs => rw [← List.takeWhile_append_dropWhile isWordDotChar s]
          conv_lhs =>
            rw [← List.takeWhile_append_dropWhile isPySpace
              (s.dropWhile isWordDotChar)]
          rw [e3]
          conv_lhs => rw [← List.takeWhile_append_dropWhile nonRParen s2]
          rw [e5]
          conv_lhs => rw [← List.takeWhile_append_dropWhile isPySpace s3]
          rw [e6]
        · refine ⟨s.takeWhile isWordDotChar,
            (s.dropWhile isWordDotChar).takeWhile isPySpace,
            s2.takeWhile nonRParen, s3.takeWhile isPySpace, ret, ['\n'],
            ?_, hn, hna, hw1, hpa, hw2, hretnl, Or.inr rfl⟩
          conv_lhs => rw [← List.takeWhile_append_dropWhile isWordDotChar s]
          conv_lhs =>
            rw [← List.takeWhile_append_dropWhile isPySpace
              (s.dropWhile isWordDotChar)]
          rw [e3]
          conv_lhs => rw [← List.takeWhile_append_dropWhile nonRParen s2]
          rw [e5]
          conv_lhs => rw [← List.takeWhile_append_dropWhile isPySpace s3]
          rw [hcase]

theorem parseFuncCore_complete {s : List Char} (h : FuncCoreShape s) :
    (parseFuncCore s).isSome = true := by
  obtain ⟨nm, w1, params, w2, ret, nl, heq, hn, hna, hw1, hp, hw2, hr, hnl⟩ := h
  subst heq
  rw [parseFuncCore_decomp hn hna hw1 hp hw2, Option.isSome_map']
  exact dotStarEnd_isSome_of_suffix hr hnl (List.dropWhile_suffix isPySpace)

/-! ### The Go receiver group and the full Go parser -/

theorem goParseReceiver_sound {s1 rc rest : List Char}
    (h : goParseReceiver s1 = some (rc, rest)) :
    ∃ t w c, s1 = t ++ (w ++ (c ++ ')' :: rest)) ∧ t ≠ [] ∧ AllB nonSpace t ∧
      w ≠ [] ∧ AllB isPySpace w ∧ c ≠ [] ∧ AllB nonRParen c := by
  unfold goParseReceiver at h
  by_cases h1 : s1.takeWhile nonSpace = []
  · rw [if_pos h1] at h
    cases h
  rw [if_neg h1] at h
  by_cases h2 : ((s1.dropWhile nonSpace).takeWhile isPySpace).length = 0
  · rw [if_pos h2] at h
    cases h
  rw [if_neg h2] at h
  cases hE : expectChar ')' ((s1.dropWhile nonSpace).dropWhile nonRParen) with
  | none =>
    rw [hE, Option.none_bind] at h
    cases h
  | some rest' =>
    rw [hE, Option.some_bind] at h
    by_cases h3 : ((s1.dropWhile nonSpace).takeWhile nonRParen).length < 2
    · rw [if_pos h3] at h
      cases h
    rw [if_neg h3] at h
    simp only [Option.some.injEq, Prod.mk.injEq] at h
    obtain ⟨hrc, hrest⟩ := h
    subst hrest
    have hq2 := expectChar_eq_some.mp hE
    have hwl : 1 ≤ ((s1.dropWhile nonSpace).takeWhile isPySpace).length :=
      Nat.one_le_iff_ne_zero.mpr h2
    have hql : 2 ≤ ((s1.dropWhile nonSpace).takeWhile nonRParen).length :=
      Nat.le_of_not_lt h3
    have hi1 : 1 ≤ min ((s1.dropWhile nonSpace).takeWhile isPySpace).length
        (((s1.dropWhile nonSpace).takeWhile nonRParen).length - 1) :=
      le_min hwl (by omega)
    have hiq : min ((s1.dropWhile nonSpace).takeWhile isPySpace).length
        (((s1.dropWhile nonSpace).takeWhile nonRParen).length - 1)
        ≤ ((s1.dropWhile nonSpace).takeWhile nonRParen).length := by
      refine le_trans (min_le_right _ _) (by omega)
    have htake_eq : ((s1.dropWhile nonSpace).takeWhile nonRParen).take
          (min ((s1.dropWhile nonSpace).takeWhile isPySpace).length
            (((s1.dropWhile nonSpace).takeWhile nonRParen).length - 1))
        = (s1.dropWhile nonSpace).take
            (min ((s1.dropWhile nonSpace).takeWhile isPySpace).length
              (((s1.dropWhile nonSpace).takeWhile nonRParen).length - 1)) :=
      take_takeWhile_eq hiq
    refine ⟨s1.takeWhile nonSpace,
      ((s1.dropWhile nonSpace).takeWhile nonRParen).take
        (min ((s1.dropWhile nonSpace).takeWhile isPySpace).length
          (((s1.dropWhile nonSpace).takeWhile nonRParen).length - 1)),
      rc, ?_, h1, fun c hc => List.mem_takeWhile_imp hc, ?_, ?_, ?_, ?_⟩
    · conv_lhs => rw [← List.takeWhile_append_dropWhile nonSpace s1]
      congr 1
      conv_lhs =>
        rw [← List.takeWhile_append_dropWhile nonRParen
          (s1.dropWhile nonSpace)]
      rw [hq2, ← hrc,
        ← List.take_append_drop
          (min ((s1.dropWhile nonSpace).takeWhile isPySpace).length
            (((s1.dropWhile nonSpace).takeWhile nonRParen).length - 1))
          ((s1.dropWhile nonSpace).takeWhile nonRParen),
        List.append_assoc]
      simp
    · intro hnil
      have := congrArg List.length hnil
      simp only [List.length_take, List.length_nil] at this
      omega
    · intro c hc
      rw [htake_eq] at hc
      exact mem_take_takeWhile (min_le_left _ _) c hc
    · subst hrc
      intro hnil
      have := congrArg List.length hnil
      simp only [List.length_drop, List.length_nil] at this
      omega
    · subst hrc
      intro x hx
      exact List.mem_takeWhile_imp (List.drop_subset _ _ hx)

theorem goParseReceiver_complete {t w c rest0 : List Char}
    (ht : t ≠ []) (hta : AllB nonSpace t) (hw : w ≠ [])
    (hwa : AllB isPySpace w) (hc : c ≠ []) (hca : AllB nonRParen c) :
    ∃ rc, goParseReceiver (t ++ (w ++ (c ++ ')' :: rest0)))
      = some (rc, rest0) := by
  obtain ⟨a, as, rfl⟩ := List.exists_cons_of_ne_nil hw
  have hb : ∀ x, ((a :: as) ++ (c ++ ')' :: rest0)).head? = some x →
      nonSpace x = false := by
    intro x hx
    simp only [List.cons_append, List.head?_cons, Option.some.injEq] at hx
    subst hx
    simp [nonSpace, hwa a (List.mem_cons_self a as)]
  have htk := takeWhile_append_stop (a := t) hta hb
  have hdr := dropWhile_append_stop (a := t) hta hb
  have hwc : ∀ x ∈ (a :: as) ++ c, nonRParen x = true := by
    intro x hx
    rcases List.mem_append.mp hx with hx | hx
    · exact pySpace_nonRParen (hwa x hx)
    · exact hca x hx
  have hassoc : (a :: as) ++ (c ++ ')' :: rest0)
      = ((a :: as) ++ c) ++ ')' :: rest0 := by
    rw [List.append_assoc]
  have hdq : ((a :: as) ++ (c ++ ')' :: rest0)).dropWhile nonRParen
      = ')' :: rest0 := by
    rw [hassoc]
    exact dropWhile_append_stop hwc (head_cons_false (by decide))
  have htq : ((a :: as) ++ (c ++ ')' :: rest0)).takeWhile nonRParen
      = (a :: as) ++ c := by
    rw [hassoc]
    exact takeWhile_append_stop hwc (head_cons_false (by decide))
  have hwspos : 1 ≤ (((a :: as) ++ (c ++ ')' :: rest0)).takeWhile
      isPySpace).length := by
    rw [List.cons_append, List.takeWhile_cons_of_pos (by
      simpa using hwa a (List.mem_cons_self a as))]
    simp
  have hclen : 1 ≤ c.length := by
    cases c with
    | nil => exact absurd rfl hc
    | cons y ys => simp
  have hcond1 : ¬ ((((a :: as) ++ (c ++ ')' :: rest0)).takeWhile
      isPySpace).length = 0) := by omega
  have hcond2 : ¬ (((a :: as) ++ c).length < 2) := by
    simp only [List.length_append, List.length_cons]
    omega
  have heq : goParseReceiver (t ++ ((a :: as) ++ (c ++ ')' :: rest0)))
      = some (((a :: as) ++ c).drop
          (min (((a :: as) ++ (c ++ ')' :: rest0)).takeWhile
              isPySpace).length
            (((a :: as) ++ c).length - 1)),
        rest0) := by
    unfold goParseReceiver
    rw [htk, if_neg ht, hdr, hdq, expectChar_eq_some.mpr rfl,
      Option.some_bind, htq, if_neg hcond1, if_neg hcond2]
  exact ⟨_, heq⟩

theorem FuncCoreShape_head {rest : List Char} (h : FuncCoreShape rest) :
    ∃ x rest', rest = x :: rest' ∧ isWordDotChar x = true := by
  obtain ⟨nm, w1, params, w2, ret, nl, heq, hn, hna, _⟩ := h
  obtain ⟨a, as, rfl⟩ := List.exists_cons_of_ne_nil hn
  exact ⟨a, as ++ (w1 ++ '(' :: (params ++ ')' :: (w2 ++ (ret ++ nl)))),
    by simpa using heq, hna a (List.mem_cons_self a as)⟩

theorem dropWhile_pySpace_of_core {w0 rest : List Char}
    (hw0 : AllB isPySpace w0) (hcore : FuncCoreShape rest) :
    (w0 ++ rest).dropWhile isPySpace = rest := by
  obtain ⟨x, rest', hrest, hx⟩ := FuncCoreShape_head hcore
  rw [List.dropWhile_append_of_pos hw0, hrest,
    List.dropWhile_cons_of_neg (by simp [wordDot_not_pySpace hx]), ← hrest]

theorem goCore_sound {s : List Char} {r : GoSig}
    (h : goDescribeSignatureCore s = some r) : GoFuncShape s := by
  unfold goDescribeSignatureCore at h
  cases hE : expectChar '(' s with
  | none =>
    rw [hE] at h
    simp only [Option.elim_none] at h
    obtain ⟨f, hf, _⟩ := Option.map_eq_some'.mp h
    refine ⟨[], s.takeWhile isPySpace, s.dropWhile isPySpace, ?_,
      Or.inl rfl, fun c hc => List.mem_takeWhile_imp hc,
      parseFuncCore_sound hf⟩
    rw [List.nil_append, List.takeWhile_append_dropWhile]
  | some s1 =>
    rw [hE] at h
    simp only [Option.elim_some] at h
    cases hR : goParseReceiver s1 with
    | none =>
      rw [hR, Option.none_bind] at h
      cases h
    | some pr =>
      obtain ⟨rc, rest⟩ := pr
      rw [hR, Option.some_bind] at h
      obtain ⟨f, hf, _⟩ := Option.map_eq_some'.mp h
      obtain ⟨t, w, c, hs1, ht, hta, hw, hwa, hc, hca⟩ :=
        goParseReceiver_sound hR
      refine ⟨'(' :: (t ++ (w ++ (c ++ [')']))), rest.takeWhile isPySpace,
        rest.dropWhile isPySpace, ?_,
        Or.inr ⟨t, w, c, rfl, ht, hta, hw, hwa, hc, hca⟩,
        fun x hx => List.mem_takeWhile_imp hx, parseFuncCore_sound hf⟩
      rw [expectChar_eq_some.mp hE, hs1]
      conv_lhs => rw [← List.takeWhile_append_dropWhile isPySpace rest]
      simp [List.append_assoc]

theorem goCore_complete {s : List Char} (h : GoFuncShape s) :
    (goDescribeSignatureCore s).isSome = true := by
  obtain ⟨rcv, w0, rest, heq, hr, hw0, hcore⟩ := h
  obtain ⟨x, rest', hrest, hx⟩ := FuncCoreShape_head hcore
  rcases hr with rfl | hr
  · subst heq
    have hE : expectChar '(' ([] ++ (w0 ++ rest)) = none := by
      apply expectChar_none_of_head
      intro y hy
      rw [List.nil_append] at hy
      cases w0 with
      | nil =>
        rw [List.nil_append, hrest] at hy
        simp only [List.head?_cons, Option.some.injEq] at hy
        exact hy ▸ wordDot_ne_lparen hx
      | cons a as =>
        simp only [List.cons_append, List.head?_cons, Option.some.injEq] at hy
        exact hy ▸ pySpace_ne_lparen (hw0 a (List.mem_cons_self a as))
    unfold goDescribeSignatureCore
    rw [hE]
    simp only [Option.elim_none]
    rw [Option.isSome_map', List.nil_append, dropWhile_pySpace_of_core hw0 hcore]
    exact parseFuncCore_complete hcore
  · obtain ⟨t, w, c, hrcv, ht, hta, hw, hwa, hc, hca⟩ := hr
    subst hrcv
    subst heq
    have hform : ('(' :: (t ++ (w ++ (c ++ [')'])))) ++ (w0 ++ rest)
        = '(' :: (t ++ (w ++ (c ++ ')' :: (w0 ++ rest)))) := by
      simp [List.append_assoc]
    rw [hform]
    unfold goDescribeSignatureCore
    rw [expectChar_eq_some.mpr rfl]
    simp only [Option.elim_some]
    obtain ⟨rc, hrc⟩ := @goParseReceiver_complete t w c (w0 ++ rest)
      ht hta hw hwa hc hca
    rw [hrc, Option.some_bind, Option.isSome_map',
      dropWhile_pySpace_of_core hw0 hcore]
    exact parseFuncCore_complete hcore

/-! ### The Kotlin property grammar -/

theorem kotlinParseSig_exact {owner member ty : List Char}
    (ho : owner ≠ []) (hoa : AllB isWordDotChar owner)
    (hm : member ≠ []) (hma : AllB isWordChar member)
    (hty : '\n' ∉ ty) (hth : ∀ c, ty.head? = some c → isPySpace c = false) :
    kotlinParseSig (owner ++ '#' :: (member ++ ':' :: ' ' :: ty))
      = some ⟨owner, member, ty⟩ := by
  have hbf : ∀ c, ('#' :: (member ++ ':' :: ' ' :: ty)).head? = some c →
      isWordDotChar c = false := head_cons_false (by decide)
  have htk := takeWhile_append_stop (a := owner) hoa hbf
  have hdr := dropWhile_append_stop (a := owner) hoa hbf
  have hbm : ∀ c, (':' :: ' ' :: ty).head? = some c → isWordChar c = false :=
    head_cons_false (by decide)
  have htk2 := takeWhile_append_stop (a := member) hma hbm
  have hdr2 := dropWhile_append_stop (a := member) hma hbm
  have hsp : (':' :: ' ' :: ty).dropWhile isPySpace = ':' :: ' ' :: ty :=
    List.dropWhile_cons_of_neg (by decide)
  have hty2 : (' ' :: ty).dropWhile isPySpace = ty := by
    rw [List.dropWhile_cons_of_pos (by decide)]
    cases ty with
    | nil => rfl
    | cons c cs => exact List.dropWhile_cons_of_neg (by simp [hth c rfl])
  unfold kotlinParseSig
  rw [htk, hdr, if_neg ho, expectChar_eq_some.mpr rfl, Option.some_bind,
    htk2, hdr2, if_neg hm, hsp, expectChar_eq_some.mpr rfl, Option.some_bind,
    hty2, dotStarEnd_no_newline hty]
  rfl

theorem kotlinParseSig_sound {s : List Char} {r : KtProp}
    (h : kotlinParseSig s = some r) : HashColonInOrder s := by
  unfold kotlinParseSig at h
  by_cases hn : s.takeWhile isWordDotChar = []
  · rw [if_pos hn] at h
    cases h
  rw [if_neg hn] at h
  cases hE : expectChar '#' (s.dropWhile isWordDotChar) with
  | none =>
    rw [hE, Option.none_bind] at h
    cases h
  | some s2 =>
    rw [hE, Option.some_bind] at h
    by_cases hm : s2.takeWhile isWordChar = []
    · rw [if_pos hm] at h
      cases h
    rw [if_neg hm] at h
    cases hE2 : expectChar ':' ((s2.dropWhile isWordChar).dropWhile isPySpace)
      with
    | none =>
      rw [hE2, Option.none_bind] at h
      cases h
    | some s4 =>
      refine ⟨s.takeWhile isWordDotChar,
        s2.takeWhile isWordChar ++ (s2.dropWhile isWordChar).takeWhile
          isPySpace, s4, ?_⟩
      have e1 := expectChar_eq_some.mp hE
      have e2 := expectChar_eq_some.mp hE2
      conv_lhs => rw [← List.takeWhile_append_dropWhile isWordDotChar s]
      rw [e1]
      conv_lhs => rw [← List.takeWhile_append_dropWhile isWordChar s2]
      conv_lhs =>
        rw [← List.takeWhile_append_dropWhile isPySpace
          (s2.dropWhile isWordChar)]
      rw [e2, List.append_assoc]

/-! ### Helper lemmas: build state and directive processing -/

theorem fupdate_same {α β : Type} [DecidableEq α] (f : α → β) (a : α)
    (b : β) : fupdate f a b a = b := by
  simp [fupdate]

theorem fupdate_other {α β : Type} [DecidableEq α] (f : α → β) (a x : α)
    (b : β) (h : x ≠ a) : fupdate f a b x = f x := by
  simp [fupdate, h]

theorem addTargetAndIndex_refContext (doc2path : List Char → List Char)
    (st : BuildState) (dom objtype nm docname it : List Char) :
    (addTargetAndIndex doc2path st dom objtype nm docname it).state.refContext
      = st.refContext := by
  unfold addTargetAndIndex
  dsimp only
  split <;> rfl

theorem addTargetAndIndex_skip {doc2path : List Char → List Char}
    {st : BuildState} {dom objtype nm docname it : List Char}
    (h : targetNameOf objtype nm ∈ st.docIds docname) :
    addTargetAndIndex doc2path st dom objtype nm docname it
      = ⟨st, [],
         if it = [] then []
         else [⟨"single".data, it, targetNameOf objtype nm⟩]⟩ := by
  unfold addTargetAndIndex
  dsimp only
  rw [if_pos h]

theorem addTargetAndIndex_fresh {doc2path : List Char → List Char}
    {st : BuildState} {dom objtype nm docname it : List Char}
    (h : targetNameOf objtype nm ∉ st.docIds docname) :
    addTargetAndIndex doc2path st dom objtype nm docname it
      = ⟨{ st with
            docIds := fupdate st.docIds docname
              (targetNameOf objtype nm :: st.docIds docname),
            objects :=
              fupdate st.objects (dom, (objtype, nm)) (some docname) },
         (match st.objects (dom, (objtype, nm)) with
          | some prev => [duplicateWarning objtype nm (doc2path prev)]
          | none => []),
         if it = [] then []
         else [⟨"single".data, it, targetNameOf objtype nm⟩]⟩ := by
  unfold addTargetAndIndex
  dsimp only
  rw [if_neg h]

theorem nsUpdate_eq_self {st : BuildState} {k : DirKind} {sig : List Char}
    (hk : ∀ dn, k ≠ DirKind.namespaceIntro dn) : nsUpdate st k sig = st := by
  cases k with
  | namespaceIntro dn => exact absurd rfl (hk dn)
  | generic cfg => rfl
  | goFunc => rfl
  | kotlinProperty => rfl
  | sqlFunction => rfl

theorem processDirective_refContext {doc2path : List Char → List Char}
    {st : BuildState} {e : Event} {r : StepResult}
    (hk : ∀ dn, e.kind ≠ DirKind.namespaceIntro dn)
    (h : processDirective doc2path st e = some r) :
    r.state.refContext = st.refContext := by
  unfold processDirective at h
  obtain ⟨res, _, hr⟩ := Option.map_eq_some'.mp h
  rw [← hr]
  dsimp only
  rw [addTargetAndIndex_refContext, nsUpdate_eq_self hk]

theorem stepState_refContext {doc2path : List Char → List Char}
    {st : BuildState} {e : Event}
    (hk : ∀ dn, e.kind ≠ DirKind.namespaceIntro dn) :
    (stepState doc2path st e).refContext = st.refContext := by
  unfold stepState
  cases hp : processDirective doc2path st e with
  | none => rfl
  | some r => exact processDirective_refContext hk hp

theorem processAll_refContext {doc2path : List Char → List Char}
    {es : List Event}
    (h : ∀ e ∈ es, ∀ dn, e.kind ≠ DirKind.namespaceIntro dn) :
    ∀ st : BuildState,
      (processAll doc2path st es).refContext = st.refContext := by
  induction es with
  | nil => intro st; rfl
  | cons e es ih =>
    intro st
    have h1 : ∀ e' ∈ es, ∀ dn, e'.kind ≠ DirKind.namespaceIntro dn :=
      fun e' he' => h e' (List.mem_cons_of_mem e he')
    unfold processAll
    rw [List.foldl_cons]
    exact (ih h1 (stepState doc2path st e)).trans
      (stepState_refContext (h e (List.mem_cons_self e es)))

theorem stepState_namespaceIntro (doc2path : List Char → List Char)
    (st : BuildState) (dn dom lab ot doc arg : List Char) :
    (stepState doc2path st
        ⟨DirKind.namespaceIntro dn, dom, lab, ot, doc, arg⟩).refContext
      = fupdate st.refContext polyglotNamespaceKey (some (pyStrip arg)) := by
  unfold stepState processDirective
  simp only [describeSignatureDispatch, Option.map_some']
  rw [addTargetAndIndex_refContext]
  rfl

theorem describeDispatch_key_only {k : DirKind} {ctx ctx' : RefContext}
    {sig : List Char}
    (h : ctx polyglotNamespaceKey = ctx' polyglotNamespaceKey) :
    describeSignatureDispatch k ctx sig
      = describeSignatureDispatch k ctx' sig := by
  cases k <;>
    simp [describeSignatureDispatch, genericDescribeSignature,
      goDescribeSignatureFull, kotlinDescribeSignatureFull,
      sqlDescribeSignatureFull, h]

/-! ### Further parser lemmas used by the claims -/

theorem head_cond_of_headD {ty : List Char}
    (h : isPySpace (ty.headD 'a') = false) :
    ∀ c, ty.head? = some c → isPySpace c = false := by
  intro c hc
  cases ty with
  | nil => cases hc
  | cons x xs =>
    simp only [List.head?_cons, Option.some.injEq] at hc
    subst hc
    simpa using h

/-- On a receiver clause `(v T)` (variable, one space, type with a leading
non-space character) the capture is exactly `T`: the `\S+` matching `v` and
the following `\s+` lie outside the capture group. -/
theorem goParseReceiver_exact {v T rest0 : List Char} (hv : v ≠ [])
    (hva : AllB nonSpace v) (hT : T ≠ []) (hTa : AllB nonRParen T)
    (hTh : ∀ c, T.head? = some c → isPySpace c = false) :
    goParseReceiver (v ++ ' ' :: (T ++ ')' :: rest0)) = some (T, rest0) := by
  obtain ⟨x, xs, rfl⟩ := List.exists_cons_of_ne_nil hT
  have hb : ∀ c, (' ' :: (x :: xs ++ ')' :: rest0)).head? = some c →
      nonSpace c = false := head_cons_false (by decide)
  have htk := takeWhile_append_stop (a := v) hva hb
  have hdr := dropWhile_append_stop (a := v) hva hb
  have hxs : isPySpace x = false := hTh x rfl
  have hws : (' ' :: (x :: xs ++ ')' :: rest0)).takeWhile isPySpace
      = [' '] := by
    rw [List.takeWhile_cons_of_pos (by decide), List.cons_append,
      List.takeWhile_cons_of_neg (by simp [hxs])]
  have hrp : ∀ c ∈ ' ' :: (x :: xs), nonRParen c = true := by
    intro c hc
    rcases List.mem_cons.mp hc with rfl | hc
    · decide
    · exact hTa c hc
  have hshape : ' ' :: (x :: xs ++ ')' :: rest0)
      = (' ' :: (x :: xs)) ++ ')' :: rest0 := by
    simp
  have hq : (' ' :: (x :: xs ++ ')' :: rest0)).takeWhile nonRParen
      = ' ' :: (x :: xs) := by
    rw [hshape]
    exact takeWhile_append_stop hrp (head_cons_false (by decide))
  have hq2 : (' ' :: (x :: xs ++ ')' :: rest0)).dropWhile nonRParen
      = ')' :: rest0 := by
    rw [hshape]
    exact dropWhile_append_stop hrp (head_cons_false (by decide))
  unfold goParseReceiver
  rw [htk, if_neg hv, hdr, hws, hq, hq2, expectChar_eq_some.mpr rfl,
    Option.some_bind, if_neg (by simp), if_neg (by simp)]
  simp [Nat.min_def]

/-! ### Claim theorems -/

/-- C6: the Go and SQL signature parsers raise their parsing error
(`ValueError('no match')`, modelled as `none`) exactly on the inputs that
do not match the call-with-parentheses shape of the corresponding regex
(an optional receiver group for Go, then a mandatory name and
parenthesised parameter list); on a match no error is raised. -/
theorem C6_parse_error_iff_no_match (s : List Char) :
    (goDescribeSignatureCore s = none ↔ ¬ GoFuncShape s) ∧
    (parseFuncCore s = none ↔ ¬ FuncCoreShape s) ∧
    (∀ ctx : RefContext,
      goDescribeSignatureFull ctx s = none ↔ ¬ GoFuncShape s) ∧
    (∀ ctx : RefContext,
      sqlDescribeSignatureFull ctx s = none ↔ ¬ FuncCoreShape s) := by
  have hgo : goDescribeSignatureCore s = none ↔ ¬ GoFuncShape s := by
    constructor
    · intro hnone hshape
      have hsome := goCore_complete hshape
      rw [hnone] at hsome
      cases hsome
    · intro hns
      cases hg : goDescribeSignatureCore s with
      | none => rfl
      | some r => exact absurd (goCore_sound hg) hns
  have hsql : parseFuncCore s = none ↔ ¬ FuncCoreShape s := by
    constructor
    · intro hnone hshape
      have hsome := parseFuncCore_complete hshape
      rw [hnone] at hsome
      cases hsome
    · intro hns
      cases hg : parseFuncCore s with
      | none => rfl
      | some r => exact absurd (parseFuncCore_sound hg) hns
  refine ⟨hgo, hsql, ?_, ?_⟩
  · intro ctx
    rw [← hgo]
    unfold goDescribeSignatureFull
    exact Option.map_eq_none'
  · intro ctx
    rw [← hsql]
    unfold sqlDescribeSignatureFull
    exact Option.map_eq_none'

/-- C5: a signature `name(params) ret` (name of word/dot characters,
`)`-free parameter text, return text with a non-space first character) is
parsed by both the Go and the SQL grammar into exactly that name, the
verbatim unsplit parameter text and that return type; the rendered nodes
hold the parameter text as a single parameter, and when `ret` is empty no
return annotation is rendered and the stored canonical name carries no
return information. -/
theorem C5_function_signature_captures (nm params ret : List Char)
    (hn : nm ≠ []) (hna : AllB isWordDotChar nm) (hp : AllB nonRParen params)
    (hr : '\n' ∉ ret) (hrh : isPySpace (ret.headD 'a') = false) :
    goDescribeSignatureCore (nm ++ '(' :: (params ++ ')' ::
        (if ret = [] then [] else ' ' :: ret)))
      = some ⟨none, nm, params, ret⟩ ∧
    parseFuncCore (nm ++ '(' :: (params ++ ')' ::
        (if ret = [] then [] else ' ' :: ret)))
      = some ⟨nm, params, ret⟩ ∧
    (∀ ctx : RefContext, ∃ nodes,
      goDescribeSignatureFull ctx (nm ++ '(' :: (params ++ ')' ::
          (if ret = [] then [] else ' ' :: ret)))
        = some (nodes, some nm) ∧
      DescNode.parameterlist [params] ∈ nodes ∧
      (ret = [] → ∀ t, DescNode.returns t ∉ nodes)) ∧
    (∀ ctx : RefContext, ∃ nodes,
      sqlDescribeSignatureFull ctx (nm ++ '(' :: (params ++ ')' ::
          (if ret = [] then [] else ' ' :: ret)))
        = some (nodes, some nm) ∧
      DescNode.parameterlist [params] ∈ nodes ∧
      (ret = [] → ∀ t, DescNode.returns t ∉ nodes)) := by
  obtain ⟨a, as, rfl⟩ := List.exists_cons_of_ne_nil hn
  have hha : isWordDotChar a = true := hna a (List.mem_cons_self a as)
  have hcore : parseFuncCore ((a :: as) ++ '(' :: (params ++ ')' ::
      (if ret = [] then [] else ' ' :: ret))) = some ⟨a :: as, params, ret⟩ :=
    parseFuncCore_exact hn hna hp hr (head_cond_of_headD hrh)
  have hE : expectChar '(' ((a :: as) ++ '(' :: (params ++ ')' ::
      (if ret = [] then [] else ' ' :: ret))) = none := by
    apply expectChar_none_of_head
    intro y hy
    simp only [List.cons_append, List.head?_cons, Option.some.injEq] at hy
    exact hy ▸ wordDot_ne_lparen hha
  have hdw : ((a :: as) ++ '(' :: (params ++ ')' ::
      (if ret = [] then [] else ' ' :: ret))).dropWhile isPySpace
      = (a :: as) ++ '(' :: (params ++ ')' ::
        (if ret = [] then [] else ' ' :: ret)) := by
    rw [List.cons_append]
    exact List.dropWhile_cons_of_neg (by simp [wordDot_not_pySpace hha])
  have hgo : goDescribeSignatureCore ((a :: as) ++ '(' :: (params ++ ')' ::
      (if ret = [] then [] else ' ' :: ret))) = some ⟨none, a :: as, params,
      ret⟩ := by
    unfold goDescribeSignatureCore
    rw [hE]
    simp only [Option.elim_none]
    rw [hdw, hcore]
    rfl
  refine ⟨hgo, hcore, ?_, ?_⟩
  · intro ctx
    refine ⟨[DescNode.annot "func ".data]
      ++ (match ctx polyglotNamespaceKey with
          | some ns => [DescNode.addname (ns ++ ".".data)]
          | none => [])
      ++ [DescNode.declName (a :: as), DescNode.parameterlist [params]]
      ++ (if ret.length > 0 then
            [DescNode.text " ".data, DescNode.returns ret]
          else []), ?_, ?_, ?_⟩
    · unfold goDescribeSignatureFull
      rw [hgo, Option.map_some']
      rfl
    · cases ctx polyglotNamespaceKey <;> simp
    · intro hret t
      subst hret
      cases ctx polyglotNamespaceKey <;> simp
  · intro ctx
    refine ⟨[DescNode.annot "function ".data]
      ++ (match ctx polyglotNamespaceKey with
          | some ns => [DescNode.addname (ns ++ ".".data)]
          | none => [])
      ++ [DescNode.declName (a :: as), DescNode.parameterlist [params]]
      ++ (if ret.length > 0 then
            [DescNode.text " ".data, DescNode.returns ret]
          else []), ?_, ?_, ?_⟩
    · unfold sqlDescribeSignatureFull
      rw [hcore, Option.map_some']
    · cases ctx polyglotNamespaceKey <;> simp
    · intro hret t
      subst hret
      cases ctx polyglotNamespaceKey <;> simp

/-- Witness for C5 at the example signature `Handle(req *Request) error`. -/
theorem C5_witness :
    goDescribeSignatureCore ("Handle".data ++ '(' :: ("req *Request".data ++
        ')' :: (if "error".data = ([] : List Char) then []
          else ' ' :: "error".data)))
      = some ⟨none, "Handle".data, "req *Request".data, "error".data⟩ :=
  (C5_function_signature_captures "Handle".data "req *Request".data
    "error".data (by decide) (by decide) (by decide) (by decide)
    (by decide)).1

/-- C3 counterexample: on the spec's example input — which includes the
`func` keyword — the optional receiver group cannot apply (it is anchored
at position 0 and the input starts with `f`), so the regex takes `func` as
the function name, `s *Server` as the parameter list and the whole tail
`Handle(req *Request) error` as the return type; and even on the
keyword-free input the receiver capture is `*Server`, not the full clause
`s *Server`, because `\S+\s+` lies outside the capture group. -/
theorem C3_counterexample :
    goDescribeSignatureCore
        "func (s *Server) Handle(req *Request) error".data
      = some ⟨none, "func".data, "s *Server".data,
          "Handle(req *Request) error".data⟩ ∧
    ¬ goDescribeSignatureCore
        "func (s *Server) Handle(req *Request) error".data
      = some ⟨some "s *Server".data, "Handle".data, "req *Request".data,
          "error".data⟩ ∧
    ¬ goDescribeSignatureCore
        "(s *Server) Handle(req *Request) error".data
      = some ⟨some "s *Server".data, "Handle".data, "req *Request".data,
          "error".data⟩ :=
  ⟨by decide, by decide, by decide⟩

/-- C3 amended: for method-like signatures `(v T) name(params)` the
receiver capture equals the receiver clause with its first whitespace-
delimited token (the receiver variable) and the separating whitespace
removed, i.e. just `T`; the receiver is absent whenever the signature does
not begin with `(`; and the keyword-free example
`(s *Server) Handle(req *Request) error` parses to receiver `*Server`,
name `Handle`, parameters `req *Request`, return type `error`. -/
theorem C3_amended (v T nm params : List Char) (hv : v ≠ [])
    (hva : AllB nonSpace v) (hT : T ≠ []) (hTa : AllB nonRParen T)
    (hTh : isPySpace (T.headD 'a') = false) (hn : nm ≠ [])
    (hna : AllB isWordDotChar nm) (hp : AllB nonRParen params) :
    goDescribeSignatureCore
        ('(' :: (v ++ ' ' :: (T ++ ')' :: ' ' ::
          (nm ++ '(' :: (params ++ [')'])))))
      = some ⟨some T, nm, params, []⟩ ∧
    (∀ s : List Char, ∀ r : GoSig, goDescribeSignatureCore s = some r →
      (∀ x, s.head? = some x → x ≠ '(') → r.receiver = none) ∧
    goDescribeSignatureCore "(s *Server) Handle(req *Request) error".data
      = some ⟨some "*Server".data, "Handle".data, "req *Request".data,
          "error".data⟩ := by
  refine ⟨?_, ?_, by decide⟩
  · have hrest : (' ' :: (nm ++ '(' :: (params ++ [')']))).dropWhile isPySpace
        = nm ++ '(' :: (params ++ [')']) := by
      rw [List.dropWhile_cons_of_pos (by decide)]
      obtain ⟨a, as, rfl⟩ := List.exists_cons_of_ne_nil hn
      rw [List.cons_append]
      exact List.dropWhile_cons_of_neg
        (by simp [wordDot_not_pySpace (hna a (List.mem_cons_self a as))])
    have hpc : parseFuncCore (nm ++ '(' :: (params ++ [')']))
        = some ⟨nm, params, []⟩ := by
      have h0 := @parseFuncCore_exact nm params [] hn hna hp (by simp)
        (fun c hc => by cases hc)
      simpa using h0
    unfold goDescribeSignatureCore
    rw [expectChar_eq_some.mpr rfl]
    simp only [Option.elim_some]
    rw [goParseReceiver_exact hv hva hT hTa (head_cond_of_headD hTh),
      Option.some_bind]
    dsimp only
    rw [hrest, hpc]
    rfl
  · intro s r hs hhead
    unfold goDescribeSignatureCore at hs
    rw [expectChar_none_of_head hhead] at hs
    simp only [Option.elim_none] at hs
    obtain ⟨f, _, hf⟩ := Option.map_eq_some'.mp hs
    rw [← hf]

/-- Witness for C3's amended statement at the example receiver clause. -/
theorem C3_amended_witness :
    goDescribeSignatureCore ('(' :: ("s".data ++ ' ' :: ("*Server".data ++
        ')' :: ' ' :: ("Handle".data ++ '(' ::
          ("req *Request".data ++ [')'])))))
      = some ⟨some "*Server".data, "Handle".data, "req *Request".data, []⟩ :=
  (C3_amended "s".data "*Server".data "Handle".data "req *Request".data
    (by decide) (by decide) (by decide) (by decide) (by decide) (by decide)
    (by decide) (by decide)).1

/-- C4: every property signature `Owner#member: Type` parses to the owner,
member and type and yields the canonical name `Owner#member`; every
signature in which a `#` followed (later) by a `:` does not occur makes
the Kotlin property directive fail with a parsing error. -/
theorem C4_kotlin_property (owner member ty : List Char) (ho : owner ≠ [])
    (hoa : AllB isWordDotChar owner) (hm : member ≠ [])
    (hma : AllB isWordChar member) (hty : '\n' ∉ ty)
    (hth : isPySpace (ty.headD 'a') = false) :
    kotlinParseSig (owner ++ '#' :: (member ++ ':' :: ' ' :: ty))
      = some ⟨owner, member, ty⟩ ∧
    (∀ ctx : RefContext, ∃ nodes,
      kotlinDescribeSignatureFull ctx
          (owner ++ '#' :: (member ++ ':' :: ' ' :: ty))
        = some (nodes, some (owner ++ "#".data ++ member))) ∧
    (∀ ctx : RefContext, ∀ s : List Char, ¬ HashColonInOrder s →
      kotlinDescribeSignatureFull ctx s = none) := by
  have hparse := kotlinParseSig_exact ho hoa hm hma hty
    (head_cond_of_headD hth)
  refine ⟨hparse, ?_, ?_⟩
  · intro ctx
    refine ⟨[DescNode.annot "property ".data]
      ++ (match ctx polyglotNamespaceKey with
          | some ns =>
            [DescNode.addname (ns ++ ".".data ++ owner ++ ".".data)]
          | none => [])
      ++ [DescNode.declName member]
      ++ (if ty.length > 0 then
            [DescNode.text " ".data, DescNode.returns ty]
          else []), ?_⟩
    unfold kotlinDescribeSignatureFull
    rw [hparse, Option.map_some']
  · intro ctx s hno
    unfold kotlinDescribeSignatureFull
    rw [Option.map_eq_none']
    cases hk : kotlinParseSig s with
    | none => rfl
    | some r => exact absurd (kotlinParseSig_sound hk) hno

/-- Witness for C4 at the spec's example signature `Widget#size: Int`. -/
theorem C4_witness :
    kotlinParseSig ("Widget".data ++ '#' :: ("size".data ++ ':' :: ' ' ::
        "Int".data))
      = some ⟨"Widget".data, "size".data, "Int".data⟩ :=
  (C4_kotlin_property "Widget".data "size".data "Int".data (by decide)
    (by decide) (by decide) (by decide) (by decide) (by decide)).1

/-- C8: processing any member (non-namespace-introducing) directive leaves
the reference context untouched — the step only reads the namespace slot,
so its value afterwards equals its value before. -/
theorem C8_member_preserves_namespace (doc2path : List Char → List Char)
    (st : BuildState) (e : Event)
    (hk : ∀ dn, e.kind ≠ DirKind.namespaceIntro dn) :
    (stepState doc2path st e).refContext = st.refContext :=
  stepState_refContext hk

/-- Witness for C8: a Go function directive leaves the context intact. -/
theorem C8_witness :
    (stepState (fun d => d) initialBuildState
        ⟨DirKind.goFunc, "go".data, "Go".data, "func".data, "doc".data,
          "Handle(req *Request) error".data⟩).refContext
      = initialBuildState.refContext :=
  C8_member_preserves_namespace (fun d => d) initialBuildState _
    (by intro dn h; cases h)

/-- C7: a namespace-introducing directive unconditionally overwrites the
single namespace slot with its stripped argument — whatever was stored
before is discarded — and no later member directive restores a previous
value: after the write, any sequence of non-namespace directives leaves
the slot at the new value. -/
theorem C7_namespace_overwrite (doc2path : List Char → List Char)
    (st : BuildState) (dn dom lab ot doc arg : List Char) (es : List Event)
    (hes : ∀ e ∈ es, ∀ dn', e.kind ≠ DirKind.namespaceIntro dn') :
    (stepState doc2path st
        ⟨DirKind.namespaceIntro dn, dom, lab, ot, doc, arg⟩).refContext
      polyglotNamespaceKey = some (pyStrip arg) ∧
    (processAll doc2path
        (stepState doc2path st
          ⟨DirKind.namespaceIntro dn, dom, lab, ot, doc, arg⟩) es).refContext
      polyglotNamespaceKey = some (pyStrip arg) := by
  have h1 : (stepState doc2path st
      ⟨DirKind.namespaceIntro dn, dom, lab, ot, doc, arg⟩).refContext
      polyglotNamespaceKey = some (pyStrip arg) := by
    rw [stepState_namespaceIntro]
    exact fupdate_same ..
  exact ⟨h1, by rw [processAll_refContext hes]; exact h1⟩

/-- Witness for C7: a Ruby module declaration sets the slot. -/
theorem C7_witness :
    (stepState (fun d => d) initialBuildState
        ⟨DirKind.namespaceIntro "module".data, "rb".data, "Ruby".data,
          "module".data, "doc".data, "MyModule".data⟩).refContext
      polyglotNamespaceKey = some (pyStrip "MyModule".data) :=
  (C7_namespace_overwrite (fun d => d) initialBuildState "module".data
    "rb".data "Ruby".data "module".data "doc".data "MyModule".data []
    (by intro e he; exact absurd he (List.not_mem_nil e))).1

/-- C10: the namespace slot is the single key `polyglot:namespace` shared
by every language domain: a namespace-introducing directive of any domain
writes exactly that key and leaves every other key unchanged, every
directive's signature handling reads the context only through that key,
and after any domain's namespace directive the member directives with a
separator of every domain display the stored namespace joined with their
own separator. -/
theorem C10_shared_namespace_slot (doc2path : List Char → List Char)
    (st : BuildState) (dn dom lab ot doc arg : List Char) :
    ((stepState doc2path st
          ⟨DirKind.namespaceIntro dn, dom, lab, ot, doc, arg⟩).refContext
        polyglotNamespaceKey = some (pyStrip arg)) ∧
    (∀ q, q ≠ polyglotNamespaceKey →
      (stepState doc2path st
          ⟨DirKind.namespaceIntro dn, dom, lab, ot, doc, arg⟩).refContext q
        = st.refContext q) ∧
    (∀ k : DirKind, ∀ ctx ctx' : RefContext, ∀ sig : List Char,
      ctx polyglotNamespaceKey = ctx' polyglotNamespaceKey →
      describeSignatureDispatch k ctx sig
        = describeSignatureDispatch k ctx' sig) ∧
    (∀ d ∈ addedDomains, ∀ p ∈ d.directives, ∀ cfg sep sig,
      p.2 = DirKind.generic cfg → cfg.namespaceSeparator = some sep →
      genericDescribeSignature cfg
          ((stepState doc2path st
            ⟨DirKind.namespaceIntro dn, dom, lab, ot, doc, arg⟩).refContext)
          sig
        = ([DescNode.annot (cfg.directiveName ++ " ".data),
            DescNode.addname (pyStrip arg ++ sep), DescNode.declName sig],
           none)) := by
  refine ⟨?_, ?_, ?_, ?_⟩
  · rw [stepState_namespaceIntro]
    exact fupdate_same ..
  · intro q hq
    rw [stepState_namespaceIntro]
    exact fupdate_other _ _ _ _ hq
  · intro k ctx ctx' sig h
    exact describeDispatch_key_only h
  · intro d hd p hp cfg sep sig hcfg hsep
    rw [stepState_namespaceIntro]
    unfold genericDescribeSignature
    simp only [hsep, fupdate_same]
    rfl

/-- C9: when the target id `objtype-name` is already among the current
document's ids — as after an earlier declaration of the same (kind, name)
in the same document — `add_target_and_index` performs no registry write
and emits no warning: the whole build state is unchanged and only the
index entry is still appended.  The second part exhibits the scenario: a
first declaration puts its target id into the document's id set. -/
theorem C9_same_document_skip (doc2path : List Char → List Char)
    (st : BuildState) (dom objtype nm docname it : List Char)
    (hmem : targetNameOf objtype nm ∈ st.docIds docname)
    (hit : it ≠ []) :
    addTargetAndIndex doc2path st dom objtype nm docname it
      = ⟨st, [], [⟨"single".data, it, targetNameOf objtype nm⟩]⟩ ∧
    (∀ st0 : BuildState, targetNameOf objtype nm ∉ st0.docIds docname →
      targetNameOf objtype nm ∈
        (addTargetAndIndex doc2path st0 dom objtype nm
          docname it).state.docIds docname) := by
  constructor
  · rw [addTargetAndIndex_skip hmem, if_neg hit]
  · intro st0 h0
    rw [addTargetAndIndex_fresh h0]
    dsimp only
    rw [fupdate_same]
    exact List.mem_cons_self ..

/-- Witness for C9: a repeated Ruby class declaration in one document. -/
theorem C9_witness :
    addTargetAndIndex (fun d => d)
        { refContext := fun _ => none, objects := fun _ => none,
          docIds := fun _ => [targetNameOf "class".data "Foo".data] }
        "rb".data "class".data "Foo".data "doc".data "idx".data
      = ⟨{ refContext := fun _ => none, objects := fun _ => none,
           docIds := fun _ => [targetNameOf "class".data "Foo".data] },
         [],
         [⟨"single".data, "idx".data,
           targetNameOf "class".data "Foo".data⟩]⟩ :=
  (C9_same_document_skip (fun d => d)
    { refContext := fun _ => none, objects := fun _ => none,
      docIds := fun _ => [targetNameOf "class".data "Foo".data] }
    "rb".data "class".data "Foo".data "doc".data "idx".data
    (by decide) (by decide)).1

/-- C2 counterexample: two declarations of the same (kind, name) in the
same document within one build.  The second declaration emits no warning
at all (its target id is already among the document's ids, so the whole
registry-and-warning block is skipped), refuting the claim that for every
such pair the second declaration produces exactly one warning. -/
theorem C2_counterexample :
    ((processDirective (fun d => d)
          (stepState (fun d => d) initialBuildState
            ⟨DirKind.generic ⟨"class".data, none⟩, "rb".data, "Ruby".data,
              "class".data, "doc1".data, "Foo".data⟩)
          ⟨DirKind.generic ⟨"class".data, none⟩, "rb".data, "Ruby".data,
            "class".data, "doc1".data, "Foo".data⟩).map
        StepResult.warnings) = some [] ∧
    (stepState (fun d => d)
        (stepState (fun d => d) initialBuildState
          ⟨DirKind.generic ⟨"class".data, none⟩, "rb".data, "Ruby".data,
            "class".data, "doc1".data, "Foo".data⟩)
        ⟨DirKind.generic ⟨"class".data, none⟩, "rb".data, "Ruby".data,
          "class".data, "doc1".data, "Foo".data⟩).objects
      ("rb".data, ("class".data, "Foo".data)) = some "doc1".data :=
  ⟨by decide, by decide⟩

/-- C2 amended: for declarations of the same (kind, name) under the same
domain whose target id is fresh in each of the two (distinct) documents,
the second declaration produces exactly one warning, the warning text ends
with the path of the first declaration's document, and afterwards the
registry maps (kind, name) to the second document. -/
theorem C2_amended (doc2path : List Char → List Char) (st0 : BuildState)
    (dom objtype nm d1 d2 it1 it2 : List Char)
    (h1 : targetNameOf objtype nm ∉ st0.docIds d1)
    (h2 : targetNameOf objtype nm ∉ st0.docIds d2) (hne : d1 ≠ d2) :
    (addTargetAndIndex doc2path
        (addTargetAndIndex doc2path st0 dom objtype nm d1 it1).state
        dom objtype nm d2 it2).warnings
      = [duplicateWarning objtype nm (doc2path d1)] ∧
    (addTargetAndIndex doc2path
        (addTargetAndIndex doc2path st0 dom objtype nm d1 it1).state
        dom objtype nm d2 it2).state.objects (dom, (objtype, nm))
      = some d2 ∧
    (∃ pre, duplicateWarning objtype nm (doc2path d1)
      = pre ++ doc2path d1) := by
  have hs1 := @addTargetAndIndex_fresh doc2path st0 dom objtype nm d1 it1 h1
  have h2' : targetNameOf objtype nm ∉
      (addTargetAndIndex doc2path st0 dom objtype nm d1 it1).state.docIds
        d2 := by
    rw [hs1]
    dsimp only
    rw [fupdate_other _ _ _ _ (Ne.symm hne)]
    exact h2
  have hs2 := @addTargetAndIndex_fresh doc2path
    (addTargetAndIndex doc2path st0 dom objtype nm d1 it1).state
    dom objtype nm d2 it2 h2'
  refine ⟨?_, ?_, ⟨_, rfl⟩⟩
  · rw [hs2, hs1]
    dsimp only
    rw [fupdate_same]
  · rw [hs2]
    dsimp only
    rw [fupdate_same]

/-- Witness for C2's amended statement: the same Ruby class declared in
two documents. -/
theorem C2_amended_witness :
    (addTargetAndIndex (fun d => d ++ ".rst".data)
        (addTargetAndIndex (fun d => d ++ ".rst".data) initialBuildState
          "rb".data "class".data "Foo".data "doc1".data "idx".data).state
        "rb".data "class".data "Foo".data "doc2".data "idx".data).warnings
      = [duplicateWarning "class".data "Foo".data
          ("doc1".data ++ ".rst".data)] :=
  (C2_amended (fun d => d ++ ".rst".data) initialBuildState "rb".data
    "class".data "Foo".data "doc1".data "doc2".data "idx".data "idx".data
    (by decide) (by decide) (by decide)).1

/-- C1 counterexample: with namespace `NS` active, processing the Ruby
`class` directive (registered separator `::`) on the signature `Foo`
returns the bare canonical name `Foo`, not `NS::Foo`; the registry key is
(class, Foo) while (class, NS::Foo) is absent, and the qualified name
appears only in the displayed `desc_addname` prefix node. -/
theorem C1_counterexample :
    ((processDirective (fun d => d)
          { refContext := fupdate (fun _ => none) polyglotNamespaceKey
              (some "NS".data),
            objects := fun _ => none, docIds := fun _ => [] }
          ⟨DirKind.generic ⟨"class".data, some "::".data⟩, "rb".data,
            "Ruby".data, "class".data, "doc".data, "Foo".data⟩).map
        StepResult.canonicalName) = some "Foo".data ∧
    ¬ ((processDirective (fun d => d)
          { refContext := fupdate (fun _ => none) polyglotNamespaceKey
              (some "NS".data),
            objects := fun _ => none, docIds := fun _ => [] }
          ⟨DirKind.generic ⟨"class".data, some "::".data⟩, "rb".data,
            "Ruby".data, "class".data, "doc".data, "Foo".data⟩).map
        StepResult.canonicalName) = some "NS::Foo".data ∧
    (stepState (fun d => d)
        { refContext := fupdate (fun _ => none) polyglotNamespaceKey
            (some "NS".data),
          objects := fun _ => none, docIds := fun _ => [] }
        ⟨DirKind.generic ⟨"class".data, some "::".data⟩, "rb".data,
          "Ruby".data, "class".data, "doc".data, "Foo".data⟩).objects
      ("rb".data, ("class".data, "Foo".data)) = some "doc".data ∧
    (stepState (fun d => d)
        { refContext := fupdate (fun _ => none) polyglotNamespaceKey
            (some "NS".data),
          objects := fun _ => none, docIds := fun _ => [] }
        ⟨DirKind.generic ⟨"class".data, some "::".data⟩, "rb".data,
          "Ruby".data, "class".data, "doc".data, "Foo".data⟩).objects
      ("rb".data, ("class".data, "NS::Foo".data)) = none ∧
    ((processDirective (fun d => d)
          { refContext := fupdate (fun _ => none) polyglotNamespaceKey
              (some "NS".data),
            objects := fun _ => none, docIds := fun _ => [] }
          ⟨DirKind.generic ⟨"class".data, some "::".data⟩, "rb".data,
            "Ruby".data, "class".data, "doc".data, "Foo".data⟩).map
        StepResult.nodes)
      = some [DescNode.annot "class ".data, DescNode.addname "NS::".data,
          DescNode.declName "Foo".data] :=
  ⟨by decide, by decide, by decide, by decide, by decide⟩

/-- C1 amended: while a namespace is active, for each registered namespace
separator the namespace joined to the local name with that separator
appears only as the displayed prefix node; signature handling returns the
bare local name, the registry entry is keyed by that bare name, and no
other registry key (in particular not the qualified one) is written.
Moreover `#` is not among the registered namespace separators. -/
theorem C1_amended (sep : List Char)
    (hsep : sep ∈ registeredNamespaceSeparators)
    (doc2path : List Char → List Char) (st : BuildState)
    (ns dn dom lab ot doc sig : List Char)
    (hns : st.refContext polyglotNamespaceKey = some ns)
    (hid : targetNameOf ot sig ∉ st.docIds doc) :
    (∃ r, processDirective doc2path st
        ⟨DirKind.generic ⟨dn, some sep⟩, dom, lab, ot, doc, sig⟩ = some r ∧
      r.nodes = [DescNode.annot (dn ++ " ".data),
        DescNode.addname (ns ++ sep), DescNode.declName sig] ∧
      r.canonicalName = sig ∧
      r.state.objects (dom, (ot, sig)) = some doc ∧
      (∀ k, k ≠ (dom, (ot, sig)) → r.state.objects k = st.objects k)) ∧
    "#".data ∉ registeredNamespaceSeparators := by
  have hgen : genericDescribeSignature ⟨dn, some sep⟩ st.refContext sig
      = ([DescNode.annot (dn ++ " ".data), DescNode.addname (ns ++ sep),
          DescNode.declName sig], none) := by
    unfold genericDescribeSignature
    rw [hns]
    rfl
  have hproc : processDirective doc2path st
      ⟨DirKind.generic ⟨dn, some sep⟩, dom, lab, ot, doc, sig⟩
      = some ⟨(addTargetAndIndex doc2path st dom ot sig doc
            (getIndexText lab dn sig)).state,
          (addTargetAndIndex doc2path st dom ot sig doc
            (getIndexText lab dn sig)).warnings,
          (addTargetAndIndex doc2path st dom ot sig doc
            (getIndexText lab dn sig)).index,
          [DescNode.annot (dn ++ " ".data), DescNode.addname (ns ++ sep),
            DescNode.declName sig], sig⟩ := by
    unfold processDirective
    simp only [describeSignatureDispatch, nsUpdate]
    rw [hgen, Option.map_some']
    rfl
  refine ⟨⟨_, hproc, rfl, rfl, ?_, ?_⟩, by decide⟩
  · dsimp only
    rw [addTargetAndIndex_fresh hid]
    dsimp only
    rw [fupdate_same]
  · intro k hk
    dsimp only
    rw [addTargetAndIndex_fresh hid]
    dsimp only
    rw [fupdate_other _ _ _ _ hk]

/-- Witness for C1's amended statement: the Ruby separator `::` with an
active namespace `NS`. -/
theorem C1_amended_witness :
    (∃ r, processDirective (fun d => d)
        { refContext := fupdate (fun _ => none) polyglotNamespaceKey
            (some "NS".data),
          objects := fun _ => none, docIds := fun _ => [] }
        ⟨DirKind.generic ⟨"class".data, some "::".data⟩, "rb".data,
          "Ruby".data, "class".data, "doc".data, "Foo".data⟩ = some r ∧
      r.nodes = [DescNode.annot ("class".data ++ " ".data),
        DescNode.addname ("NS".data ++ "::".data),
        DescNode.declName "Foo".data] ∧
      r.canonicalName = "Foo".data ∧
      r.state.objects ("rb".data, ("class".data, "Foo".data))
        = some "doc".data ∧
      (∀ k, k ≠ ("rb".data, ("class".data, "Foo".data)) →
        r.state.objects k = none)) ∧
    "#".data ∉ registeredNamespaceSeparators :=
  C1_amended "::".data (by decide) (fun d => d) _ "NS".data "class".data
    "rb".data "Ruby".data "class".data "doc".data "Foo".data (by decide)
    (by decide)

end SphinxPolyglot
